import Mathlib

/-!
Verification of the koruma validation-rule compiler.

This file shallowly embeds the parts of the `koruma` repository that the
checked properties are about:

* the type-manipulation utilities of `koruma-derive-core/src/utils.rs`
  (`substitute_infer_type`, `first_generic_arg`, `contains_infer_type`,
  `is_option_infer_type`, `option_inner_type`, `vec_inner_type`,
  `is_option_type`);
* the validator-type resolution of `koruma-derive/src/expand/codegen.rs`
  (`validator_wants_full_type`, `validator_type_for_field`,
  `effective_validation_type`);
* the attribute aggregation of `parse_field` and the invocation grammar of
  `ValidatorAttr::parse` from `koruma-derive-core/src/parse.rs`;
* the control flow of the `validate` body emitted by `expand_koruma` in
  `koruma-derive/src/expand/derive.rs`, together with the emitted per-field
  error values, their `is_empty`/`has_errors` accessors and the newtype
  `Deref` access.

Machine-level details that the properties do not depend on (spans, token
pretty-printing, the concrete validator implementations) are abstracted:
a validator instance is modelled by its name together with its boolean
`validate` outcome on the value it is given.
-/

namespace Koruma

/-! ## The syn type model

`syn::Type` restricted to what the koruma utilities inspect: the infer
placeholder `_`, path types (a non-empty list of segments, each an
identifier with its angle-bracketed type arguments), and a catch-all
constructor for every other `Type` variant (references, tuples, ...),
which all the utilities treat uniformly as "not a path, not infer".
Generic arguments that are not types (lifetimes, const arguments) are
omitted; the Rust code skips over them and only ever reads
`GenericArgument::Type` entries.

Because `Ty` occurs nested inside lists, the segment list and the
argument list are given as bespoke mutual inductives (`Segs`, `Args`)
so that structural recursion and induction stay available. -/

mutual

inductive Ty : Type where
  /-- the `_` placeholder, `Type::Infer` -/
  | infer : Ty
  /-- a path type, `Type::Path`: segments in order -/
  | path (segs : Segs) : Ty
  /-- any other `syn::Type` variant -/
  | other : Ty

inductive Segs : Type where
  | nil : Segs
  | cons (name : String) (args : Args) (rest : Segs) : Segs

inductive Args : Type where
  | nil : Args
  | cons (head : Ty) (tail : Args) : Args

end

deriving instance DecidableEq for Ty

/-- Last segment of a segment list (`path.segments.last()`). -/
def Segs.last? : Segs → Option (String × Args)
  | .nil => none
  | .cons n a rest =>
    match rest.last? with
    | some x => some x
    | none => some (n, a)

/-- First argument of an argument list (`args.first()` / the first
`GenericArgument::Type` in source order). -/
def Args.head? : Args → Option Ty
  | .nil => none
  | .cons t _ => some t

mutual

/-- Embeds `substitute_infer_type` (utils.rs): replace every infer
placeholder leaf of `ty` with `infer_ty`, recursing through the
angle-bracketed arguments of every path segment; every other type is
returned unchanged. -/
def substitute_infer_type : Ty → Ty → Ty
  | .infer, it => it
  | .path segs, it => .path (substituteSegs segs it)
  | .other, _ => .other

/-- Segment-list part of `substitute_infer_type` (the `for segment in
&mut new_path.path.segments` loop). -/
def substituteSegs : Segs → Ty → Segs
  | .nil, _ => .nil
  | .cons n args rest, it => .cons n (substituteArgs args it) (substituteSegs rest it)

/-- Argument-list part of `substitute_infer_type` (the `for arg in &mut
args.args` loop). -/
def substituteArgs : Args → Ty → Args
  | .nil, _ => .nil
  | .cons a tail, it => .cons (substitute_infer_type a it) (substituteArgs tail it)

end

mutual

/-- Embeds `contains_infer_type` (utils.rs): does the type contain an
infer placeholder, looking through path-segment arguments only. -/
def contains_infer_type : Ty → Bool
  | .infer => true
  | .path segs => containsInferSegs segs
  | .other => false

/-- Segment-list part of `contains_infer_type`. -/
def containsInferSegs : Segs → Bool
  | .nil => false
  | .cons _ args rest => containsInferArgs args || containsInferSegs rest

/-- Argument-list part of `contains_infer_type`. -/
def containsInferArgs : Args → Bool
  | .nil => false
  | .cons a tail => contains_infer_type a || containsInferArgs tail

end

/-- Embeds `first_generic_arg` (utils.rs): the first generic type
argument of the last path segment, e.g. `Vec<String> → String`. -/
def first_generic_arg : Ty → Option Ty
  | .path segs =>
    match segs.last? with
    | some (_, args) => args.head?
    | none => none
  | _ => none

/-- Embeds `option_inner_type` (utils.rs): `Option<T> → T`, keyed on the
last path segment being named `Option`. -/
def option_inner_type : Ty → Option Ty
  | .path segs =>
    match segs.last? with
    | some (n, args) => if n = "Option" then args.head? else none
    | none => none
  | _ => none

/-- Embeds `vec_inner_type` (utils.rs): `Vec<T> → T`, keyed on the last
path segment being named `Vec`. -/
def vec_inner_type : Ty → Option Ty
  | .path segs =>
    match segs.last? with
    | some (n, args) => if n = "Vec" then args.head? else none
    | none => none
  | _ => none

/-- Embeds `is_option_type` (utils.rs). -/
def is_option_type (ty : Ty) : Bool :=
  (option_inner_type ty).isSome

/-- Embeds `is_option_infer_type` (utils.rs): is the type literally
`Option<_>` (last segment named `Option`, first type argument an infer
placeholder). -/
def is_option_infer_type : Ty → Bool
  | .path segs =>
    match segs.last? with
    | some (n, args) =>
      n = "Option" &&
        (match args.head? with
         | some .infer => true
         | some _ => false
         | none => false)
    | none => false
  | _ => false

/-! ## Validator invocations

`ValidatorAttr` from parse.rs, restricted to the data the checked
properties read: the path (list of segment identifiers), the `::<_>`
flag, the optional explicit type parameter and the argument names.
Argument value expressions are irrelevant to every property and are
dropped. -/

structure ValidatorAttr where
  /-- path segments of the validator name, e.g. `["validators", "Len"]` -/
  validator : List String
  /-- `::<_>` was written -/
  infer_type : Bool
  /-- an explicit `::<T>` type, possibly containing placeholders -/
  explicit_type : Option Ty
  /-- argument names, in source order -/
  args : List String
  deriving DecidableEq

/-- Embeds `ValidatorAttr::name`: the last path segment, the identity
used for duplicate detection and slot naming.  The Rust code panics on
an empty path, which the grammar cannot produce; the model totalises
with the empty string. -/
def ValidatorAttr.name (v : ValidatorAttr) : String :=
  (v.validator.getLast?).getD ""

/-- Embeds `validator_wants_full_type` (codegen.rs): true exactly for
the `::<Option<_>>` escape-hatch spelling. -/
def validator_wants_full_type (v : ValidatorAttr) : Bool :=
  match v.explicit_type with
  | some t => is_option_infer_type t
  | none => false

/-- Embeds `validator_type_for_field` (codegen.rs).  The result is the
type argument the validator is instantiated with (`none` when the
validator is emitted without a type argument). -/
def validator_type_for_field (v : ValidatorAttr) (field_ty : Ty)
    (validate_each : Bool) : Option Ty :=
  match v.explicit_type with
  | some explicit_ty =>
    if contains_infer_type explicit_ty then
      let inner_ty := (first_generic_arg field_ty).getD field_ty
      some (substitute_infer_type explicit_ty inner_ty)
    else
      some explicit_ty
  | none =>
    let after_vec :=
      if validate_each then (vec_inner_type field_ty).getD field_ty else field_ty
    let effective_ty := (option_inner_type after_vec).getD after_vec
    if v.infer_type then some effective_ty else none

/-- Embeds `effective_validation_type` (codegen.rs): unwrap one `Vec`
level when validating elements, then one `Option` level. -/
def effective_validation_type (field_ty : Ty) (validate_each : Bool) : Ty :=
  let after_vec :=
    if validate_each then (vec_inner_type field_ty).getD field_ty else field_ty
  (option_inner_type after_vec).getD after_vec

/-- Embeds the element-validation setup of `expand_koruma`
(derive.rs, the `element_validation` block): the element type is
`vec_inner_type(field_ty)` falling back to the field type itself, the
iteration strategy is chosen by `is_option_type(element_ty)`, and the
inferred element validation type is `effective_validation_type(field_ty,
true)`. -/
def element_validation_info (field_ty : Ty) : Ty × Bool × Ty :=
  let element_ty := (vec_inner_type field_ty).getD field_ty
  (element_ty, is_option_type element_ty, effective_validation_type field_ty true)

/-! ## The generated `validate` body

`expand_koruma` emits, per annotated field, straight-line validation
code (derive.rs, `validation_checks`).  The model below mirrors that
control flow exactly, abstracting a concrete validator instance to its
name together with its boolean `validate` outcome: the emitted code
builds the validator, calls `validate` on the chosen value, and on
failure stores the instance in that validator's slot of the per-field
error value and raises the shared `has_error` flag.  A stored slot is
modelled by the boolean `true` (Rust: `Some(validator)`), a vacant one
by `false` (Rust: `None`). -/

/-- A configured validator check: its name and its `validate` outcome on
a value of the type it is instantiated at. -/
structure Validator (θ : Type) where
  name : String
  check : θ → Bool

/-- One run of the emitted per-validator checks on a single value: slot
`j` of the result is `true` exactly when validator `j` failed
(`if !validator.validate(v) { slot = Some(validator) }`).  Every check
runs; nothing short-circuits. -/
def runChecks (vs : List (Validator θ)) (x : θ) : List Bool :=
  vs.map (fun v => !v.check x)

/-- The emitted element loop for a `Vec<T>` field (derive.rs: `for
(idx, __item_value) in self.field.iter().enumerate()`): run every
element validator on every element, and push `(idx, element_error)`
exactly when `element_has_error` was raised for that element. -/
def elementLoopPlain (evs : List (Validator β)) (idx : Nat) :
    List β → List (Nat × List Bool)
  | [] => []
  | x :: xs =>
    if (runChecks evs x).any id then
      (idx, runChecks evs x) :: elementLoopPlain evs (idx + 1) xs
    else
      elementLoopPlain evs (idx + 1) xs

/-- The emitted element loop for a `Vec<Option<T>>` field (derive.rs:
`if let Some(ref __item_value) = item` inside the enumerated loop):
absent elements are skipped, but their index is still consumed by
`enumerate`. -/
def elementLoopOpt (evs : List (Validator β)) (idx : Nat) :
    List (Option β) → List (Nat × List Bool)
  | [] => []
  | none :: xs => elementLoopOpt evs (idx + 1) xs
  | some x :: xs =>
    if (runChecks evs x).any id then
      (idx, runChecks evs x) :: elementLoopOpt evs (idx + 1) xs
    else
      elementLoopOpt evs (idx + 1) xs

/-- Element validation of a `Vec<T>` field, starting from index `0`. -/
def element_validation (evs : List (Validator β)) (xs : List β) :
    List (Nat × List Bool) :=
  elementLoopPlain evs 0 xs

/-- Element validation of a `Vec<Option<T>>` field, starting from index
`0`. -/
def element_validation_opt (evs : List (Validator β)) (xs : List (Option β)) :
    List (Nat × List Bool) :=
  elementLoopOpt evs 0 xs

/-- One annotated field of a record, with its current value, in the
shapes the generator emits compilable code for.  `α` is the field value
type, `β` the element type of collection fields, `ε` the error type of
nested/newtype field types.  Field-level validators are carried already
split by `validator_wants_full_type` (the `partition` in derive.rs):
`fullV` are the `::<Option<_>>` validators, run on the field value
itself, `unwrappedV` the rest, run on the `Option`-unwrapped value. -/
inductive FieldCase (α β ε : Type) where
  /-- a non-optional scalar field -/
  | plain (value : α) (fullV unwrappedV : List (Validator α))
  /-- an `Option<T>` field (no element validators) -/
  | opt (value : Option α) (fullV : List (Validator (Option α)))
      (unwrappedV : List (Validator α))
  /-- a `Vec<T>` field with element validators -/
  | coll (xs : List β) (fullV unwrappedV : List (Validator (List β)))
      (elemV : List (Validator β))
  /-- a `Vec<Option<T>>` field with element validators -/
  | collOptElems (xs : List (Option β))
      (fullV unwrappedV : List (Validator (List (Option β))))
      (elemV : List (Validator β))
  /-- a `#[koruma(nested)]` field of non-optional type; `validateInner`
  is the nested type's own `validate` (`some e` models `Err(e)`) -/
  | nestedPlain (value : α) (validateInner : α → Option ε)
  /-- a `#[koruma(nested)]` field of `Option` type -/
  | nestedOpt (value : Option α) (validateInner : α → Option ε)
  /-- a `#[koruma(newtype)]` field of non-optional type -/
  | newtypePlain (value : α) (validateInner : α → Option ε)
  /-- a `#[koruma(newtype)]` field of `Option` type -/
  | newtypeOpt (value : Option α) (validateInner : α → Option ε)

/-- The per-field member of the generated aggregate error value:
either a regular per-field error struct (one slot per field-level
validator plus the `element_errors` list), or the `Option`al stored
result of a nested / newtype field's own `validate`. -/
inductive FieldError (ε : Type) where
  | regular (fullSlots unwrappedSlots : List Bool)
      (element_errors : List (Nat × List Bool))
  | nestedErr (inner : Option ε)
  | newtypeErr (inner : Option ε)

/-- Embeds the generated per-field `is_empty`: every validator slot
vacant and no element errors; for nested/newtype members,
`self.field.is_none()` respectively `inner.is_none()`. -/
def FieldError.is_empty : FieldError ε → Bool
  | .regular fs us es => fs.all (fun b => !b) && us.all (fun b => !b) && es.isEmpty
  | .nestedErr i => i.isNone
  | .newtypeErr i => i.isNone

/-- Embeds the generated per-field `has_errors` (`!self.is_empty()`). -/
def FieldError.has_errors (e : FieldError ε) : Bool :=
  !e.is_empty

/-- The emitted validation code of one field, producing that field's
member of the aggregate error, branch for branch as in derive.rs:
full-type checks run unconditionally on the field value; unwrapped
checks run inside `if let Some(ref __field_value)` for optional fields
(leaving every slot at its `None` default when the value is absent);
element loops follow; nested/newtype fields delegate to the inner
value's own `validate` and store its result verbatim. -/
def validateField : FieldCase α β ε → FieldError ε
  | .plain v full unw => .regular (runChecks full v) (runChecks unw v) []
  | .opt v full unw =>
    .regular (runChecks full v)
      (match v with
       | none => unw.map (fun _ => false)
       | some a => runChecks unw a)
      []
  | .coll xs full unw ev =>
    .regular (runChecks full xs) (runChecks unw xs) (element_validation ev xs)
  | .collOptElems xs full unw ev =>
    .regular (runChecks full xs) (runChecks unw xs) (element_validation_opt ev xs)
  | .nestedPlain v f => .nestedErr (f v)
  | .nestedOpt v f => .nestedErr (v.bind f)
  | .newtypePlain v f => .newtypeErr (f v)
  | .newtypeOpt v f => .newtypeErr (v.bind f)

/-- Whether the emitted code for this field sets the shared `has_error`
flag: the flag is raised exactly at a slot store, an
`element_errors.push`, or a stored nested/newtype error. -/
def fieldSetsHasError : FieldCase α β ε → Bool
  | .plain v full unw => (runChecks full v).any id || (runChecks unw v).any id
  | .opt v full unw =>
    (runChecks full v).any id ||
      (match v with
       | none => false
       | some a => (runChecks unw a).any id)
  | .coll xs full unw ev =>
    (runChecks full xs).any id || (runChecks unw xs).any id ||
      !(element_validation ev xs).isEmpty
  | .collOptElems xs full unw ev =>
    (runChecks full xs).any id || (runChecks unw xs).any id ||
      !(element_validation_opt ev xs).isEmpty
  | .nestedPlain v f => (f v).isSome
  | .nestedOpt v f => (v.bind f).isSome
  | .newtypePlain v f => (f v).isSome
  | .newtypeOpt v f => (v.bind f).isSome

/-- Embeds the generated aggregate `is_empty` (`ValidationError`
instance): the conjunction of every per-field check, `true` for an
empty record. -/
def recordErrorIsEmpty (e : List (FieldError ε)) : Bool :=
  e.all FieldError.is_empty

/-- The generated `validate` body: default-construct the aggregate
error with all slots empty, run every field's checks in declaration
order (each check filling its own slot and raising `has_error` on
failure), and return `Err(error)` exactly when the flag was raised. -/
def validate (fields : List (FieldCase α β ε)) :
    Except (List (FieldError ε)) Unit :=
  let error := fields.map validateField
  let has_error := fields.any fieldSetsHasError
  if has_error then .error error else .ok ()

/-! ## The newtype per-field error wrapper

For a `#[koruma(newtype)]` field, `expand_koruma` emits a wrapper error
struct holding `inner: Option<InnerError>` with `Deref` to the inner
error (derive.rs, the `is_newtype` branch of the per-field error
structs).  `Deref::deref` calls `.expect(..)` on the option; the panic
is modelled by `none`. -/

structure NewtypeFieldError (ε : Type) where
  inner : Option ε

/-- Embeds the wrapper's `is_empty`: `self.inner.is_none()`. -/
def NewtypeFieldError.is_empty (e : NewtypeFieldError ε) : Bool :=
  e.inner.isNone

/-- Embeds the wrapper's `has_errors`: `!self.is_empty()`. -/
def NewtypeFieldError.has_errors (e : NewtypeFieldError ε) : Bool :=
  !e.is_empty

/-- Embeds the wrapper's `Deref::deref`:
`self.inner.as_ref().expect(..)`.  `some` is a successful dereference,
`none` the panic raised by `expect` when no inner error is stored. -/
def NewtypeFieldError.deref (e : NewtypeFieldError ε) : Option ε :=
  e.inner

/-- Embeds the `error_defaults` initialisation for a newtype field:
the aggregate error is constructed with `inner: None`. -/
def NewtypeFieldError.default : NewtypeFieldError ε :=
  ⟨none⟩

/-- The emitted newtype-field check on a non-optional field: `if let
Err(e) = self.field.validate() { error.field.inner = Some(e); }`
applied to the default-constructed slot. -/
def runNewtypeField (v : α) (validateInner : α → Option ε) :
    NewtypeFieldError ε :=
  ⟨validateInner v⟩

/-! ## Annotation aggregation: `parse_field`

One parsed `#[koruma(...)]` occurrence (parse.rs, `KorumaAttr`), and the
aggregation of a field's occurrences into a `FieldInfo`
(`parse_field`).  Occurrences arrive here already parsed; the upstream
`SyntaxError` path of `attr.parse_args` is the grammar's concern. -/

structure KorumaAttr where
  field_validators : List ValidatorAttr
  element_validators : List ValidatorAttr
  is_skip : Bool
  is_nested : Bool
  is_newtype : Bool
  deriving DecidableEq

structure FieldInfo where
  name : String
  field_validators : List ValidatorAttr
  element_validators : List ValidatorAttr
  is_nested : Bool
  is_newtype : Bool
  deriving DecidableEq

inductive ParseFieldResult where
  | valid (info : FieldInfo)
  | skip
  | error (msg : String)
  deriving DecidableEq

/-- Embeds the duplicate-checking collection loop of `parse_field`
(`for validator in koruma_attr.field_validators { ... }`): walk the
occurrence's validators, fail on a name already in the seen set
(`HashSet::insert` returning `false`), otherwise record the name and
append the validator.  `kind` is `""` for the field slot and
`"element "` for the element slot, matching the two error messages. -/
def insertValidators (fieldName kind : String) (seen : List String)
    (acc : List ValidatorAttr) :
    List ValidatorAttr → Except String (List String × List ValidatorAttr)
  | [] => .ok (seen, acc)
  | v :: rest =>
    if v.name ∈ seen then
      .error ("duplicate " ++ kind ++ "validator `" ++ v.name ++
        "` on field `" ++ fieldName ++ "`")
    else
      insertValidators fieldName kind (v.name :: seen) (acc ++ [v]) rest

/-- Embeds the `for attr in &field.attrs` loop of `parse_field`: skip /
nested / newtype occurrences set their flag and contribute no
validators; every other occurrence has both its slots folded in through
the duplicate check, threading the two seen-name sets. -/
def parseFieldLoop (fieldName : String) :
    List KorumaAttr → List ValidatorAttr → List ValidatorAttr →
    Bool → Bool → Bool → List String → List String →
    Except String (List ValidatorAttr × List ValidatorAttr × Bool × Bool × Bool)
  | [], aF, aE, sk, ne, nt, _, _ => .ok (aF, aE, sk, ne, nt)
  | attr :: rest, aF, aE, sk, ne, nt, seenF, seenE =>
    if attr.is_skip then
      parseFieldLoop fieldName rest aF aE true ne nt seenF seenE
    else if attr.is_nested then
      parseFieldLoop fieldName rest aF aE sk true nt seenF seenE
    else if attr.is_newtype then
      parseFieldLoop fieldName rest aF aE sk ne true seenF seenE
    else
      match insertValidators fieldName "" seenF aF attr.field_validators with
      | .error e => .error e
      | .ok (seenF', aF') =>
        match insertValidators fieldName "element " seenE aE
            attr.element_validators with
        | .error e => .error e
        | .ok (seenE', aE') =>
          parseFieldLoop fieldName rest aF' aE' sk ne nt seenF' seenE'

/-- Embeds `parse_field` (parse.rs): aggregate a field's occurrences,
then resolve the modifiers in order — `skip` wins, then `nested`, then
`newtype`; a field yielding neither validators nor a modifier is
unannotated (`Skip`). -/
def parse_field (fieldName : String) (attrs : List KorumaAttr) :
    ParseFieldResult :=
  match parseFieldLoop fieldName attrs [] [] false false false [] [] with
  | .error e => .error e
  | .ok (aF, aE, sk, ne, nt) =>
    if sk then .skip
    else if ne then .valid ⟨fieldName, aF, aE, true, false⟩
    else if nt then .valid ⟨fieldName, aF, aE, false, true⟩
    else if aF.isEmpty && aE.isEmpty then .skip
    else .valid ⟨fieldName, aF, aE, false, false⟩

/-! ## The expansion pipeline around the newtype cardinality check -/

/-- Struct-level options (`StructOptions` in parse.rs). -/
structure StructOptions where
  try_new : Bool
  newtype : Bool
  deriving DecidableEq

/-- The record-shape input of `expand_koruma`: a struct with named
fields (each field its occurrence list), a struct without named fields,
or a non-struct item. -/
inductive DeriveData where
  | structNamed (fields : List (String × List KorumaAttr))
  | structOther
  | notStruct

/-- Embeds the field-collection loop of `expand_koruma`: `Valid` infos
are pushed in declaration order, `Skip` fields are dropped, the first
`Error` aborts. -/
def collectFieldInfos : List (String × List KorumaAttr) →
    Except String (List FieldInfo)
  | [] => .ok []
  | (n, attrs) :: rest =>
    match parse_field n attrs with
    | .valid info =>
      match collectFieldInfos rest with
      | .ok infos => .ok (info :: infos)
      | .error e => .error e
    | .skip => collectFieldInfos rest
    | .error e => .error e

/-- Embeds the front of `expand_koruma` (derive.rs) up to and including
the newtype cardinality check; the remainder of code generation is
infallible and is abstracted to returning the collected field infos. -/
def expand_koruma (data : DeriveData) (struct_options : StructOptions) :
    Except String (List FieldInfo) :=
  match data with
  | .notStruct => .error "Koruma can only be derived for structs"
  | .structOther => .error "Koruma only supports structs with named fields"
  | .structNamed fields =>
    match collectFieldInfos fields with
    | .error e => .error e
    | .ok field_infos =>
      if struct_options.newtype && field_infos.length != 1 then
        .error ("newtype structs must have exactly one validated field, found "
          ++ toString field_infos.length)
      else
        .ok field_infos

/-! ## The invocation grammar: `ValidatorAttr::parse`

A token-level model of `impl Parse for ValidatorAttr` (parse.rs).  The
token stream carries the tokens this parser inspects; a parenthesised
argument list is one pre-tokenised group (only argument names matter to
any property, and the argument parser is never reached by the checked
property).  The syn `Type` sub-parse used inside an explicit turbofish
is a parameter, since the checked property fires before any type is
parsed. -/

inductive Tok where
  | ident (s : String)
  /-- the `::` path separator token -/
  | pathSep
  | lt
  | gt
  | underscore
  /-- a parenthesised `name = expr, ...` argument group -/
  | argsGroup (names : List String)
  deriving DecidableEq

/-- Path-segment loop of `ValidatorAttr::parse`, after the first
segment identifier `s` has been consumed: stop before a turbofish
(`::` followed by `<`), continue through `::` followed by another
identifier, and otherwise end the path, leaving the rest (including an
unconsumed `::`) in the stream. -/
def parseSegmentsFrom (s : String) :
    List Tok → Option (List String × List Tok)
  | .pathSep :: .lt :: rest => some ([s], .pathSep :: .lt :: rest)
  | .pathSep :: .ident s2 :: rest2 =>
    match parseSegmentsFrom s2 rest2 with
    | some (segs, rem) => some (s :: segs, rem)
    | none => none
  | rest => some ([s], rest)

/-- Path parsing of `ValidatorAttr::parse`: at least one identifier. -/
def parseSegments : List Tok → Option (List String × List Tok)
  | .ident s :: rest => parseSegmentsFrom s rest
  | _ => none

/-- Leading `::` handling of `ValidatorAttr::parse`. -/
def stripLeadingPathSep : List Tok → List Tok
  | .pathSep :: rest => rest
  | toks => toks

/-- The migration hint issued for the legacy pre-turbofish generic
syntax. -/
def turbofishHint : String :=
  "use turbofish syntax for type parameters: `Validator::<_>` not `Validator<_>`"

/-- Optional trailing argument group (`if input.peek(token::Paren)`). -/
def finishArgs (segs : List String) (inf : Bool) (ety : Option Ty) :
    List Tok → Except String (ValidatorAttr × List Tok)
  | .argsGroup names :: rest => .ok (⟨segs, inf, ety, names⟩, rest)
  | rest => .ok (⟨segs, inf, ety, []⟩, rest)

/-- Embeds `ValidatorAttr::parse`: leading `::`, the manual segment
loop, then the turbofish handling — `::<_>` sets `infer_type`,
`::<Type>` records the explicit type (via the given syn `Type`
sub-parse), a bare `<` right after the path is the legacy generic
syntax and fails with the migration hint, and anything else proceeds to
the argument list. -/
def parseValidatorAttr (parseTy : List Tok → Option (Ty × List Tok))
    (input : List Tok) : Except String (ValidatorAttr × List Tok) :=
  match parseSegments (stripLeadingPathSep input) with
  | none => .error "expected identifier"
  | some (segs, rest) =>
    match rest with
    | .pathSep :: .lt :: r2 =>
      match r2 with
      | .underscore :: .gt :: r4 => finishArgs segs true none r4
      | .underscore :: _ => .error "expected `>`"
      | _ =>
        match parseTy r2 with
        | some (ty, r3) =>
          match r3 with
          | .gt :: r4 => finishArgs segs false (some ty) r4
          | _ => .error "expected `>`"
        | none => .error "expected type"
    | .lt :: _ => .error turbofishHint
    | _ => finishArgs segs false none rest

/-! ## Verification helpers

Derived notions used to state and prove the properties; they introduce
no behaviour of their own. -/

/-- Whether an `Except` value is `ok`. -/
def exceptIsOk : Except String α → Bool
  | .ok _ => true
  | .error _ => false

/-- Whether a parsed occurrence is one of the three modifiers; the
`parse_field` loop handles exactly these with `continue`. -/
def attrIsModifier (a : KorumaAttr) : Bool :=
  a.is_skip || a.is_nested || a.is_newtype

/-- A name list is admissible against a seen-set: no repetition, and no
element already seen — the success condition of the `HashSet::insert`
chain. -/
def namesFresh (seen : List String) : List String → Bool
  | [] => true
  | n :: rest => !decide (n ∈ seen) && namesFresh (n :: seen) rest

/-- The field-slot validators collected by the `parse_field` loop:
everything contributed by the non-modifier occurrences, in order. -/
def nonModFieldValidators (attrs : List KorumaAttr) : List ValidatorAttr :=
  (attrs.filter (fun a => !attrIsModifier a)).flatMap (fun a => a.field_validators)

/-- The element-slot validators collected by the `parse_field` loop. -/
def nonModElemValidators (attrs : List KorumaAttr) : List ValidatorAttr :=
  (attrs.filter (fun a => !attrIsModifier a)).flatMap (fun a => a.element_validators)

/-- The names entering the field-slot seen-set, in insertion order. -/
def nonModFieldNames (attrs : List KorumaAttr) : List String :=
  (attrs.filter (fun a => !attrIsModifier a)).flatMap
    (fun a => a.field_validators.map ValidatorAttr.name)

/-- The names entering the element-slot seen-set, in insertion order. -/
def nonModElemNames (attrs : List KorumaAttr) : List String :=
  (attrs.filter (fun a => !attrIsModifier a)).flatMap
    (fun a => a.element_validators.map ValidatorAttr.name)

/-- The success condition of the whole `parse_field` loop, threading
both seen-sets across the occurrences. -/
def attrsFresh (seenF seenE : List String) : List KorumaAttr → Bool
  | [] => true
  | a :: rest =>
    if attrIsModifier a then attrsFresh seenF seenE rest
    else
      namesFresh seenF (a.field_validators.map ValidatorAttr.name) &&
      namesFresh seenE (a.element_validators.map ValidatorAttr.name) &&
      attrsFresh ((a.field_validators.map ValidatorAttr.name).reverse ++ seenF)
        ((a.element_validators.map ValidatorAttr.name).reverse ++ seenE) rest

/-! ## Concrete fixtures -/

/-- the type `String` -/
def tyString : Ty := .path (.cons "String" .nil .nil)

/-- the type `Option<String>` -/
def tyOptString : Ty := .path (.cons "Option" (.cons tyString .nil) .nil)

/-- the type `Vec<inner>` -/
def tyVec (inner : Ty) : Ty := .path (.cons "Vec" (.cons inner .nil) .nil)

/-- the type `Vec<String>` -/
def tyVecString : Ty := tyVec tyString

/-- the type `Vec<Option<String>>` -/
def tyVecOptString : Ty := tyVec tyOptString

/-- the type `Option<Vec<String>>` -/
def tyOptVecString : Ty := .path (.cons "Option" (.cons tyVecString .nil) .nil)

/-- the written template `Wrapper<_>` -/
def tyWrapperInfer : Ty := .path (.cons "Wrapper" (.cons .infer .nil) .nil)

/-- the type `Wrapper<String>` -/
def tyWrapperString : Ty := .path (.cons "Wrapper" (.cons tyString .nil) .nil)

/-- an element-level invocation written `V::<_>` -/
def inferInvocation : ValidatorAttr := ⟨["V"], true, none, []⟩

/-- a plain invocation of `SomeValidation` -/
def vSome : ValidatorAttr := ⟨["SomeValidation"], false, none, []⟩

/-- a plain invocation of `OtherValidation` -/
def vOther : ValidatorAttr := ⟨["OtherValidation"], false, none, []⟩

/-- one occurrence carrying only field-slot invocations -/
def occField (vs : List ValidatorAttr) : KorumaAttr := ⟨vs, [], false, false, false⟩

/-- the modifier occurrence `#[koruma(nested)]` -/
def nestedOcc : KorumaAttr := ⟨[], [], false, true, false⟩

/-- a field carrying `#[koruma(nested)]` and, in a second occurrence, a
plain validator invocation -/
def nestedPlusValidatorAttrs : List KorumaAttr := [nestedOcc, occField [vSome]]

/-- the modifier occurrence `#[koruma(skip)]` -/
def skipOcc : KorumaAttr := ⟨[], [], true, false, false⟩

/-- a field carrying `#[koruma(skip)]` and, in a second occurrence, a
plain validator invocation -/
def skipPlusValidatorAttrs : List KorumaAttr := [skipOcc, occField [vSome]]

/-- one occurrence naming `SomeValidation` once in the field slot and
once in the element slot -/
def crossSlotAttrs : List KorumaAttr := [⟨[vSome], [vSome], false, false, false⟩]

/-- a two-field record, both fields annotated, for the newtype
cardinality check -/
def exTwoFieldStruct : List (String × List KorumaAttr) :=
  [("a", [occField [vSome]]), ("b", [occField [vOther]])]

/-- a `RequiredValidation::<Option<_>>`-style full-type validator on an
`Option<Nat>` field: passes exactly when the value is present -/
def requiredOptNat : Validator (Option Nat) := ⟨"RequiredValidation", fun o => o.isSome⟩

/-- an `Option<Nat>` field with an absent value carrying the full-type
validator above -/
def absentOptField : FieldCase Nat Unit Unit := .opt none [requiredOptNat] []

/-- a two-field record whose two fields both fail one check: models the
spec scenario `{name: "", age: 200}` with a non-emptiness check and an
upper-bound check -/
def exFailTwo : List (FieldCase Nat Nat Unit) :=
  [.plain 0 [⟨"NonEmpty", fun n => decide (0 < n)⟩] [],
   .plain 200 [] [⟨"MaxRange", fun n => decide (n ≤ 120)⟩]]

/-- the legacy-syntax token stream `Validator<_>` -/
def legacyInput : List Tok := [.ident "Validator", .lt, .underscore, .gt]

/-! ## Helper lemmas -/

mutual

/-- Substitution eliminates placeholders at every nesting depth: the
result still contains a placeholder exactly when the original did and
the substituted type itself does. -/
theorem contains_substitute (t it : Ty) :
    contains_infer_type (substitute_infer_type t it) =
      (contains_infer_type t && contains_infer_type it) := by
  cases t with
  | infer => simp [substitute_infer_type, contains_infer_type]
  | other => simp [substitute_infer_type, contains_infer_type]
  | path segs =>
    simp only [substitute_infer_type, contains_infer_type]
    rw [containsSegs_substitute segs it]

theorem containsSegs_substitute (s : Segs) (it : Ty) :
    containsInferSegs (substituteSegs s it) =
      (containsInferSegs s && contains_infer_type it) := by
  cases s with
  | nil => simp [substituteSegs, containsInferSegs]
  | cons n args rest =>
    simp only [substituteSegs, containsInferSegs]
    rw [containsArgs_substitute args it, containsSegs_substitute rest it]
    cases containsInferArgs args <;> cases containsInferSegs rest <;>
      cases contains_infer_type it <;> rfl

theorem containsArgs_substitute (a : Args) (it : Ty) :
    containsInferArgs (substituteArgs a it) =
      (containsInferArgs a && contains_infer_type it) := by
  cases a with
  | nil => simp [substituteArgs, containsInferArgs]
  | cons hd tl =>
    simp only [substituteArgs, containsInferArgs]
    rw [contains_substitute hd it, containsArgs_substitute tl it]
    cases contains_infer_type hd <;> cases containsInferArgs tl <;>
      cases contains_infer_type it <;> rfl

end

/-- a Bool list has a raised entry exactly when it is not all-clear -/
theorem any_id_eq_not_all_not (l : List Bool) :
    l.any id = !(l.all fun b => !b) := by
  induction l with
  | nil => rfl
  | cons b t ih => cases b <;> simp [List.any_cons, List.all_cons, ih]

/-- the `has_error` flag contribution of a field equals the
non-emptiness of the field error it produced: the generated code raises
the flag exactly where it populates a slot, pushes an element error, or
stores a nested/newtype error -/
theorem fieldSetsHasError_eq (c : FieldCase α β ε) :
    fieldSetsHasError c = (validateField c).has_errors := by
  cases c with
  | plain v full unw =>
    simp [fieldSetsHasError, validateField, FieldError.has_errors,
      FieldError.is_empty, any_id_eq_not_all_not]
  | opt v full unw =>
    cases v with
    | none =>
      simp [fieldSetsHasError, validateField, FieldError.has_errors,
        FieldError.is_empty, any_id_eq_not_all_not, List.all_map]
    | some a =>
      simp [fieldSetsHasError, validateField, FieldError.has_errors,
        FieldError.is_empty, any_id_eq_not_all_not]
  | coll xs full unw ev =>
    simp [fieldSetsHasError, validateField, FieldError.has_errors,
      FieldError.is_empty, any_id_eq_not_all_not, Bool.or_assoc]
  | collOptElems xs full unw ev =>
    simp [fieldSetsHasError, validateField, FieldError.has_errors,
      FieldError.is_empty, any_id_eq_not_all_not, Bool.or_assoc]
  | nestedPlain v f =>
    cases h : f v <;>
      simp [fieldSetsHasError, validateField, FieldError.has_errors,
        FieldError.is_empty, h]
  | nestedOpt v f =>
    cases h : v.bind f <;>
      simp [fieldSetsHasError, validateField, FieldError.has_errors,
        FieldError.is_empty, h]
  | newtypePlain v f =>
    cases h : f v <;>
      simp [fieldSetsHasError, validateField, FieldError.has_errors,
        FieldError.is_empty, h]
  | newtypeOpt v f =>
    cases h : v.bind f <;>
      simp [fieldSetsHasError, validateField, FieldError.has_errors,
        FieldError.is_empty, h]

/-- the insert chain succeeds exactly when the incoming names are fresh
against the seen-set -/
theorem insertValidators_isOk (fn k : String) (vs : List ValidatorAttr) :
    ∀ (seen : List String) (acc : List ValidatorAttr),
      exceptIsOk (insertValidators fn k seen acc vs) =
        namesFresh seen (vs.map ValidatorAttr.name) := by
  induction vs with
  | nil => intro seen acc; rfl
  | cons v rest ih =>
    intro seen acc
    by_cases h : v.name ∈ seen
    · simp [insertValidators, namesFresh, h, exceptIsOk]
    · simp [insertValidators, namesFresh, h, ih]

/-- on success the insert chain appends the validators in order and
pushes their names onto the seen-set -/
theorem insertValidators_ok_eq (fn k : String) (vs : List ValidatorAttr) :
    ∀ seen acc, namesFresh seen (vs.map ValidatorAttr.name) = true →
      insertValidators fn k seen acc vs =
        .ok ((vs.map ValidatorAttr.name).reverse ++ seen, acc ++ vs) := by
  induction vs with
  | nil => intro seen acc _; simp [insertValidators]
  | cons v rest ih =>
    intro seen acc h
    simp only [List.map_cons, namesFresh, Bool.and_eq_true, Bool.not_eq_true',
      decide_eq_false_iff_not] at h
    obtain ⟨h1, h2⟩ := h
    rw [insertValidators, if_neg h1, ih _ _ h2]
    simp [List.append_assoc]

/-- the aggregation loop succeeds exactly when every occurrence's names
are fresh in their slot -/
theorem parseFieldLoop_isOk (fn : String) (attrs : List KorumaAttr) :
    ∀ aF aE sk ne nt seenF seenE,
      exceptIsOk (parseFieldLoop fn attrs aF aE sk ne nt seenF seenE) =
        attrsFresh seenF seenE attrs := by
  induction attrs with
  | nil => intros; rfl
  | cons a rest ih =>
    intro aF aE sk ne nt seenF seenE
    by_cases h1 : a.is_skip = true
    · simp [parseFieldLoop, attrsFresh, attrIsModifier, h1, ih]
    · by_cases h2 : a.is_nested = true
      · simp [parseFieldLoop, attrsFresh, attrIsModifier, h1, h2, ih]
      · by_cases h3 : a.is_newtype = true
        · simp [parseFieldLoop, attrsFresh, attrIsModifier, h1, h2, h3, ih]
        · rw [parseFieldLoop, if_neg h1, if_neg h2, if_neg h3]
          by_cases hf : namesFresh seenF (a.field_validators.map ValidatorAttr.name) = true
          · rw [insertValidators_ok_eq fn "" a.field_validators seenF aF hf]
            by_cases he : namesFresh seenE (a.element_validators.map ValidatorAttr.name) = true
            · rw [insertValidators_ok_eq fn "element " a.element_validators seenE aE he]
              simp [attrsFresh, attrIsModifier, h1, h2, h3, hf, he, ih]
            · cases hi : insertValidators fn "element " seenE aE a.element_validators with
              | ok val =>
                exfalso
                have hok := insertValidators_isOk fn "element " a.element_validators seenE aE
                rw [hi] at hok
                exact he (by simpa [exceptIsOk] using hok.symm)
              | error e =>
                simp [hi, exceptIsOk, attrsFresh, attrIsModifier, h1, h2, h3, hf, he]
          · cases hi : insertValidators fn "" seenF aF a.field_validators with
            | ok val =>
              exfalso
              have hok := insertValidators_isOk fn "" a.field_validators seenF aF
              rw [hi] at hok
              exact hf (by simpa [exceptIsOk] using hok.symm)
            | error e =>
              simp [hi, exceptIsOk, attrsFresh, attrIsModifier, h1, h2, h3, hf]

/-- on success, the aggregation loop yields exactly the validators of
the non-modifier occurrences, appended in order, and the three modifier
flags are the disjunctions of the occurrences' flags as the
`continue`-chain resolves them -/
theorem parseFieldLoop_ok_spec (fn : String) (attrs : List KorumaAttr) :
    ∀ aF aE sk ne nt seenF seenE out,
      parseFieldLoop fn attrs aF aE sk ne nt seenF seenE = .ok out →
      out.1 = aF ++ nonModFieldValidators attrs ∧
      out.2.1 = aE ++ nonModElemValidators attrs ∧
      out.2.2.1 = (sk || attrs.any fun a => a.is_skip) ∧
      out.2.2.2.1 = (ne || attrs.any fun a => !a.is_skip && a.is_nested) ∧
      out.2.2.2.2 = (nt || attrs.any fun a => !a.is_skip && !a.is_nested && a.is_newtype) := by
  induction attrs with
  | nil =>
    intro aF aE sk ne nt seenF seenE out h
    cases h
    simp [nonModFieldValidators, nonModElemValidators]
  | cons a rest ih =>
    intro aF aE sk ne nt seenF seenE out h
    by_cases h1 : a.is_skip = true
    · rw [parseFieldLoop, if_pos h1] at h
      have spec := ih _ _ _ _ _ _ _ _ h
      refine ⟨?_, ?_, ?_, ?_, ?_⟩ <;>
        simp [spec.1, spec.2.1, spec.2.2.1, spec.2.2.2.1, spec.2.2.2.2,
          nonModFieldValidators, nonModElemValidators, attrIsModifier, h1]
    · by_cases h2 : a.is_nested = true
      · rw [parseFieldLoop, if_neg h1, if_pos h2] at h
        have spec := ih _ _ _ _ _ _ _ _ h
        refine ⟨?_, ?_, ?_, ?_, ?_⟩ <;>
          simp [spec.1, spec.2.1, spec.2.2.1, spec.2.2.2.1, spec.2.2.2.2,
            nonModFieldValidators, nonModElemValidators, attrIsModifier, h1, h2]
      · by_cases h3 : a.is_newtype = true
        · rw [parseFieldLoop, if_neg h1, if_neg h2, if_pos h3] at h
          have spec := ih _ _ _ _ _ _ _ _ h
          refine ⟨?_, ?_, ?_, ?_, ?_⟩ <;>
            simp [spec.1, spec.2.1, spec.2.2.1, spec.2.2.2.1, spec.2.2.2.2,
              nonModFieldValidators, nonModElemValidators, attrIsModifier,
              h1, h2, h3]
        · rw [parseFieldLoop, if_neg h1, if_neg h2, if_neg h3] at h
          split at h
          · exact absurd h (by simp)
          · rename_i val1 seenF' aF' heq1
            split at h
            · exact absurd h (by simp)
            · rename_i val2 seenE' aE' heq2
              have hf : namesFresh seenF (a.field_validators.map ValidatorAttr.name) = true := by
                have hok := insertValidators_isOk fn "" a.field_validators seenF aF
                rw [heq1] at hok
                simpa [exceptIsOk] using hok.symm
              have he : namesFresh seenE (a.element_validators.map ValidatorAttr.name) = true := by
                have hok := insertValidators_isOk fn "element " a.element_validators seenE aE
                rw [heq2] at hok
                simpa [exceptIsOk] using hok.symm
              rw [insertValidators_ok_eq fn "" a.field_validators seenF aF hf] at heq1
              rw [insertValidators_ok_eq fn "element " a.element_validators seenE aE he] at heq2
              obtain ⟨hseenF', haF'⟩ := Prod.mk.injEq .. ▸ (Except.ok.injEq .. ▸ heq1)
              obtain ⟨hseenE', haE'⟩ := Prod.mk.injEq .. ▸ (Except.ok.injEq .. ▸ heq2)
              subst hseenF' haF' hseenE' haE'
              have spec := ih _ _ _ _ _ _ _ _ h
              refine ⟨?_, ?_, ?_, ?_, ?_⟩ <;>
                simp [spec.1, spec.2.1, spec.2.2.1, spec.2.2.2.1, spec.2.2.2.2,
                  nonModFieldValidators, nonModElemValidators, attrIsModifier,
                  h1, h2, h3, List.append_assoc]

/-- freshness over a concatenation splits at the join, the first
block's names joining the seen-set -/
theorem namesFresh_append (xs ys : List String) :
    ∀ seen, namesFresh seen (xs ++ ys) =
      (namesFresh seen xs && namesFresh (xs.reverse ++ seen) ys) := by
  induction xs with
  | nil => intro seen; simp [namesFresh]
  | cons n t ih =>
    intro seen
    simp only [List.cons_append, namesFresh, List.append_eq]
    rw [ih (n :: seen)]
    simp [List.append_assoc, Bool.and_assoc]

/-- freshness against a seen-set is exactly: no internal repetition and
no overlap with the seen-set -/
theorem namesFresh_true_iff (ns : List String) :
    ∀ seen, (namesFresh seen ns = true ↔ ns.Nodup ∧ ∀ n ∈ ns, n ∉ seen) := by
  induction ns with
  | nil => intro seen; simp [namesFresh]
  | cons n t ih =>
    intro seen
    simp only [namesFresh, Bool.and_eq_true, Bool.not_eq_true',
      decide_eq_false_iff_not, ih (n :: seen), List.nodup_cons, List.mem_cons]
    constructor
    · rintro ⟨h1, h2, h3⟩
      refine ⟨⟨fun hmem => (h3 n hmem) (by simp), h2⟩, ?_⟩
      rintro m (rfl | hm)
      · exact h1
      · intro hs
        exact (h3 m hm) (by simp [hs])
    · rintro ⟨⟨hnt, hnd⟩, hmem⟩
      refine ⟨hmem n (Or.inl rfl), hnd, ?_⟩
      intro m hm
      simp only [List.mem_cons, not_or]
      exact ⟨fun heq => hnt (heq ▸ hm), hmem m (Or.inr hm)⟩

/-- the loop-shaped freshness condition equals per-slot freshness of
the flattened non-modifier name lists -/
theorem attrsFresh_eq (attrs : List KorumaAttr) :
    ∀ seenF seenE, attrsFresh seenF seenE attrs =
      (namesFresh seenF (nonModFieldNames attrs) &&
       namesFresh seenE (nonModElemNames attrs)) := by
  induction attrs with
  | nil => intro sF sE; simp [attrsFresh, nonModFieldNames, nonModElemNames, namesFresh]
  | cons a rest ih =>
    intro sF sE
    by_cases h : attrIsModifier a = true
    · simp [attrsFresh, h, ih, nonModFieldNames, nonModElemNames, List.filter_cons]
    · have hb : (!attrIsModifier a) = true := by simp [h]
      have hfilter : List.filter (fun x => !attrIsModifier x) (a :: rest) =
          a :: List.filter (fun x => !attrIsModifier x) rest := by
        simp [List.filter_cons, hb]
      rw [attrsFresh, if_neg h, ih]
      simp only [nonModFieldNames, nonModElemNames, hfilter, List.flatMap_cons]
      rw [namesFresh_append, namesFresh_append]
      simp [Bool.and_assoc, Bool.and_left_comm, Bool.and_comm]

/-- `parse_field` reports an error exactly when the aggregation loop
does: the post-loop modifier resolution never errors -/
theorem parse_field_error_iff (fn : String) (attrs : List KorumaAttr) :
    (∃ msg, parse_field fn attrs = .error msg) ↔
      exceptIsOk (parseFieldLoop fn attrs [] [] false false false [] []) = false := by
  unfold parse_field
  cases h : parseFieldLoop fn attrs [] [] false false false [] [] with
  | error e => simp [exceptIsOk]
  | ok out =>
    obtain ⟨aF, aE, sk, ne, nt⟩ := out
    simp only [exceptIsOk]
    constructor
    · rintro ⟨msg, hmsg⟩
      exfalso
      split_ifs at hmsg
    · intro hcontr
      exact absurd hcontr (by simp)

/-- when modifier occurrences carry no validators (the invariant
guaranteed by the occurrence grammar), the non-modifier name lists are
the name lists of all occurrences -/
theorem nonModNames_eq_of_mod_empty :
    ∀ (attrs : List KorumaAttr),
      (∀ a ∈ attrs, attrIsModifier a = true →
        a.field_validators = [] ∧ a.element_validators = []) →
      nonModFieldNames attrs =
        (attrs.flatMap fun a => a.field_validators.map ValidatorAttr.name) ∧
      nonModElemNames attrs =
        (attrs.flatMap fun a => a.element_validators.map ValidatorAttr.name) := by
  intro attrs
  induction attrs with
  | nil => intro _; simp [nonModFieldNames, nonModElemNames]
  | cons a rest ih =>
    intro hmod
    have hrest := ih (fun b hb hm => hmod b (List.mem_cons_of_mem _ hb) hm)
    have hrest2 := hrest
    simp only [nonModFieldNames, nonModElemNames] at hrest2
    by_cases h : attrIsModifier a = true
    · have ha := hmod a (List.mem_cons_self _ _) h
      simp [nonModFieldNames, nonModElemNames, List.filter_cons, h, ha.1, ha.2,
        hrest2.1, hrest2.2]
    · have hb : (!attrIsModifier a) = true := by simp [h]
      have hfilter : List.filter (fun x => !attrIsModifier x) (a :: rest) =
          a :: List.filter (fun x => !attrIsModifier x) rest := by
        simp [List.filter_cons, hb]
      simp only [nonModFieldNames, nonModElemNames, hfilter, List.flatMap_cons]
      simp [hrest2.1, hrest2.2]

/-- C10: the per-field error type generated for a `newtype` field is
default-constructed with `inner: None` in the aggregate error; its
`Deref` panics (modelled by `none`) exactly when no inner error is
stored, so dereferencing succeeds precisely when `has_errors()` is
true, i.e. when that field's validation actually failed. -/
theorem newtype_field_error_deref_safety :
    ∀ (ε : Type),
      (NewtypeFieldError.default (ε := ε)).is_empty = true ∧
      (NewtypeFieldError.default (ε := ε)).deref = none ∧
      (∀ e : NewtypeFieldError ε, e.deref.isSome = e.has_errors) ∧
      (∀ (α : Type) (v : α) (f : α → Option ε),
        (runNewtypeField v f).deref = f v ∧
        (runNewtypeField v f).has_errors = (f v).isSome) := by
  intro ε
  refine ⟨rfl, rfl, ?_, ?_⟩
  · intro e
    obtain ⟨i⟩ := e
    cases i <;> rfl
  · intro α v f
    refine ⟨rfl, ?_⟩
    cases h : f v <;>
      simp [runNewtypeField, NewtypeFieldError.has_errors,
        NewtypeFieldError.is_empty, h]

/-- C2 counterexample: an `Option<Nat>` field configured with a
full-type (`::<Option<_>>`-style) field-level validator records a
failure although the value is absent — the claim's "zero failures
regardless of which validators are configured" is false at this
input. -/
theorem absent_optional_field_records_failure :
    (validateField absentOptField).is_empty = false ∧
    fieldSetsHasError absentOptField = true :=
  ⟨rfl, rfl⟩

/-- C2 (amended): for an optional field, validators that request the
full optional type (the `::<Option<_>>` escape hatch) are invoked even
on an absent value, while all remaining field-level validators record
zero failures when the value is absent and every slot stays at its
`None` default; when the value is present, every configured field-level
validator (both kinds) is invoked on it. -/
theorem optional_field_validator_gating :
    ∀ (α β ε : Type) (full : List (Validator (Option α)))
      (unw : List (Validator α)),
      (validateField (β := β) (ε := ε) (.opt none full unw) =
        .regular (runChecks full none) (unw.map fun _ => false) []) ∧
      ((validateField (β := β) (ε := ε)
          (.opt none ([] : List (Validator (Option α))) unw)).is_empty = true) ∧
      (∀ a, validateField (β := β) (ε := ε) (.opt (some a) full unw) =
        .regular (runChecks full (some a)) (runChecks unw a) []) := by
  intro α β ε full unw
  refine ⟨rfl, ?_, fun a => rfl⟩
  simp [validateField, FieldError.is_empty, runChecks, List.all_map]

/-- C6: evaluation at the failing input: for a field declared
`Option<Vec<String>>` with element-level invocations, the generator
computes the element type as the entire field type (not the inner
`Vec`'s element type `String`), selects the optional-element iteration
on the field value itself, and resolves the inferred element validation
type to the whole inner collection `Vec<String>` — so the emitted loop
iterates the `Option`, not the elements of the inner collection. -/
theorem optional_collection_element_info_wrong :
    vec_inner_type tyOptVecString = none ∧
    element_validation_info tyOptVecString = (tyOptVecString, true, tyVecString) ∧
    (element_validation_info tyOptVecString).1 ≠ tyString ∧
    (element_validation_info tyOptVecString).2.2 ≠ tyString := by
  refine ⟨rfl, rfl, ?_, ?_⟩ <;>
    simp [element_validation_info, tyOptVecString, tyVecString, tyVec,
      tyString, tyOptString, vec_inner_type, is_option_type,
      option_inner_type, effective_validation_type, Segs.last?, Args.head?]

/-- C9: any invocation whose path is directly followed by a bare `<`
(the legacy, non-turbofish generic syntax) is rejected by
`ValidatorAttr::parse` with the turbofish migration hint, whatever the
syn type sub-parse does and whatever follows the `<`. -/
theorem legacy_generic_form_rejected_with_hint
    (parseTy : List Tok → Option (Ty × List Tok)) (input : List Tok)
    (segs : List String) (rest : List Tok)
    (h : parseSegments (stripLeadingPathSep input) = some (segs, Tok.lt :: rest)) :
    parseValidatorAttr parseTy input = .error turbofishHint := by
  simp [parseValidatorAttr, h]

/-- C9 witness: `Validator<_>` is rejected with the hint. -/
theorem legacy_generic_form_rejected_with_hint_witness :
    parseValidatorAttr (fun _ => none) legacyInput = .error turbofishHint :=
  legacy_generic_form_rejected_with_hint (fun _ => none) legacyInput
    ["Validator"] [.underscore, .gt] rfl

/-- C4 counterexample: on a field typed `Vec<Option<String>>` (so
`Inner = Option<String>`), an element-level `V::<_>` is instantiated at
`String`, not at `Inner` — the resolver unwraps one `Option` level
after taking the element type, contradicting the claim's
"instantiated at Inner". -/
theorem element_infer_not_instantiated_at_inner :
    validator_type_for_field inferInvocation tyVecOptString true = some tyString ∧
    some tyString ≠ some tyOptString := by
  refine ⟨rfl, ?_⟩
  simp [tyString, tyOptString]

/-- C4 (amended): for a field typed `Vec<Inner>`, an element-level
`V::<_>` is instantiated at `Inner` after unwrapping one optional level
(`Inner` itself whenever `Inner` is not an `Option`); an invocation
written with a placeholder template (such as `V::<Outer<_>>`) is
instantiated at the template with its placeholder leaves substituted by
the first generic argument of the original field type, the substitution
recursing through arbitrary nesting depth. -/
theorem type_parameter_resolution (p ar : List String) (inner : Ty) :
    (validator_type_for_field ⟨p, true, none, ar⟩ (tyVec inner) true =
      some ((option_inner_type inner).getD inner)) ∧
    (option_inner_type inner = none →
      validator_type_for_field ⟨p, true, none, ar⟩ (tyVec inner) true =
        some inner) ∧
    (∀ template, contains_infer_type template = true → ∀ each,
      validator_type_for_field ⟨p, false, some template, ar⟩ (tyVec inner) each =
        some (substitute_infer_type template inner)) ∧
    (∀ t it : Ty, contains_infer_type (substitute_infer_type t it) =
      (contains_infer_type t && contains_infer_type it)) := by
  refine ⟨rfl, ?_, ?_, contains_substitute⟩
  · intro h
    simp [validator_type_for_field, vec_inner_type, tyVec, Segs.last?,
      Args.head?, h]
  · intro template h each
    simp [validator_type_for_field, first_generic_arg, tyVec, Segs.last?,
      Args.head?, h]

/-- C4 witness: `V::<Wrapper<_>>` in element mode on a field typed
`Vec<String>` is instantiated at `Wrapper<String>`. -/
theorem type_parameter_resolution_witness :
    validator_type_for_field ⟨["V"], false, some tyWrapperInfer, []⟩
      (tyVec tyString) true = some tyWrapperString :=
  (type_parameter_resolution ["V"] [] tyString).2.2.1 tyWrapperInfer rfl true

/-- C7: with the struct-level `newtype` option, once the fields have
been parsed, expansion aborts with the cardinality error exactly when
the number of annotated (validated) fields differs from one, and
succeeds with exactly one annotated field. -/
theorem newtype_option_requires_single_field
    (fields : List (String × List KorumaAttr)) (opts : StructOptions)
    (infos : List FieldInfo) (hnew : opts.newtype = true)
    (hok : collectFieldInfos fields = .ok infos) :
    (infos.length ≠ 1 →
      expand_koruma (.structNamed fields) opts =
        .error ("newtype structs must have exactly one validated field, found "
          ++ toString infos.length)) ∧
    (infos.length = 1 →
      expand_koruma (.structNamed fields) opts = .ok infos) := by
  constructor <;> intro h <;> simp [expand_koruma, hok, hnew, h]

/-- C1: the generated `validate` visits every field and runs all
configured checks without short-circuiting — the error it returns is
the full map of every field's independently computed sub-error — and it
returns `Ok(())` exactly when no field's checks raised `has_error`;
otherwise it returns `Err(e)` with `e.is_empty()` false and every
failing field's own sub-error non-empty, so one call yields the
complete violation set. -/
theorem validate_reports_complete_violation_set
    (fields : List (FieldCase α β ε)) :
    (validate fields = .ok () ↔ ∀ c ∈ fields, fieldSetsHasError c = false) ∧
    (∀ e, validate fields = .error e →
      e = fields.map validateField ∧
      recordErrorIsEmpty e = false ∧
      ∀ c ∈ fields, fieldSetsHasError c = true →
        (validateField c).is_empty = false) := by
  constructor
  · unfold validate
    by_cases h : fields.any fieldSetsHasError
    · rw [if_pos h]
      simp only [List.any_eq_true] at h
      obtain ⟨c, hc, hflag⟩ := h
      constructor
      · intro hcontr; exact absurd hcontr (by simp)
      · intro hall
        rw [hall c hc] at hflag
        exact absurd hflag (by simp)
    · rw [if_neg h]
      simp only [List.any_eq_true, not_exists, not_and] at h
      constructor
      · intro _ c hc
        exact Bool.eq_false_iff.mpr (h c hc)
      · intro _; rfl
  · intro e he
    unfold validate at he
    by_cases h : fields.any fieldSetsHasError
    · rw [if_pos h] at he
      have hmap : e = fields.map validateField := by
        cases he; rfl
      refine ⟨hmap, ?_, ?_⟩
      · simp only [List.any_eq_true] at h
        obtain ⟨c, hc, hflag⟩ := h
        have hne : (validateField c).is_empty = false := by
          rw [fieldSetsHasError_eq] at hflag
          simpa [FieldError.has_errors] using hflag
        rw [hmap, recordErrorIsEmpty]
        apply Bool.eq_false_iff.mpr
        intro hall
        have := (List.all_eq_true.mp hall) (validateField c)
          (List.mem_map_of_mem _ hc)
        rw [hne] at this
        exact absurd this (by simp)
      · intro c _ hflag
        rw [fieldSetsHasError_eq] at hflag
        simpa [FieldError.has_errors] using hflag
    · rw [if_neg h] at he
      exact absurd he (by simp)

/-- C1 witness: the spec's two-failing-fields scenario: both fields
fail one check, `validate` returns the fully populated aggregate error
and its `is_empty` is false. -/
theorem validate_reports_complete_violation_set_witness :
    validate exFailTwo = .error (exFailTwo.map validateField) ∧
    recordErrorIsEmpty (exFailTwo.map validateField) = false := by
  have h := (validate_reports_complete_violation_set exFailTwo).2
    (exFailTwo.map validateField) rfl
  exact ⟨rfl, h.2.1⟩

/-- membership in the plain element loop, with running start index -/
theorem mem_elementLoopPlain (evs : List (Validator β)) (xs : List β) :
    ∀ (k i : Nat) (e : List Bool),
      ((i, e) ∈ elementLoopPlain evs k xs ↔
        ∃ j x, xs.get? j = some x ∧ i = k + j ∧
          e = runChecks evs x ∧ e.any id = true) := by
  induction xs with
  | nil => intro k i e; simp [elementLoopPlain]
  | cons y t ih =>
    intro k i e
    constructor
    · intro hmem
      by_cases hy : (runChecks evs y).any id = true
      · rw [elementLoopPlain, if_pos hy] at hmem
        rcases List.mem_cons.mp hmem with h1 | h2
        · obtain ⟨hi, he⟩ := Prod.mk.injEq .. ▸ h1
          exact ⟨0, y, rfl, by omega, by simp [he], by simp [he, hy]⟩
        · obtain ⟨j, x, hget, hi, hrun, hany⟩ := (ih (k + 1) i e).mp h2
          exact ⟨j + 1, x, by simpa using hget, by omega, hrun, hany⟩
      · rw [elementLoopPlain, if_neg hy] at hmem
        obtain ⟨j, x, hget, hi, hrun, hany⟩ := (ih (k + 1) i e).mp hmem
        exact ⟨j + 1, x, by simpa using hget, by omega, hrun, hany⟩
    · rintro ⟨j, x, hget, hi, hrun, hany⟩
      cases j with
      | zero =>
        have hx : y = x := by simpa using hget
        subst hx
        rw [elementLoopPlain, if_pos (hrun ▸ hany)]
        subst hrun
        have : i = k := by omega
        subst this
        exact List.mem_cons_self _ _
      | succ jj =>
        have hmem : (i, e) ∈ elementLoopPlain evs (k + 1) t :=
          (ih (k + 1) i e).mpr ⟨jj, x, by simpa using hget, by omega, hrun, hany⟩
        by_cases hy : (runChecks evs y).any id = true
        · rw [elementLoopPlain, if_pos hy]
          exact List.mem_cons_of_mem _ hmem
        · rw [elementLoopPlain, if_neg hy]
          exact hmem

/-- membership in the optional-element loop, with running start index -/
theorem mem_elementLoopOpt (evs : List (Validator β)) (xs : List (Option β)) :
    ∀ (k i : Nat) (e : List Bool),
      ((i, e) ∈ elementLoopOpt evs k xs ↔
        ∃ j x, xs.get? j = some (some x) ∧ i = k + j ∧
          e = runChecks evs x ∧ e.any id = true) := by
  induction xs with
  | nil => intro k i e; simp [elementLoopOpt]
  | cons oy t ih =>
    intro k i e
    cases oy with
    | none =>
      rw [elementLoopOpt]
      constructor
      · intro hmem
        obtain ⟨j, x, hget, hi, hrun, hany⟩ := (ih (k + 1) i e).mp hmem
        exact ⟨j + 1, x, by simpa using hget, by omega, hrun, hany⟩
      · rintro ⟨j, x, hget, hi, hrun, hany⟩
        cases j with
        | zero => simp at hget
        | succ jj =>
          exact (ih (k + 1) i e).mpr ⟨jj, x, by simpa using hget, by omega, hrun, hany⟩
    | some y =>
      constructor
      · intro hmem
        by_cases hy : (runChecks evs y).any id = true
        · rw [elementLoopOpt, if_pos hy] at hmem
          rcases List.mem_cons.mp hmem with h1 | h2
          · obtain ⟨hi, he⟩ := Prod.mk.injEq .. ▸ h1
            exact ⟨0, y, rfl, by omega, by simp [he], by simp [he, hy]⟩
          · obtain ⟨j, x, hget, hi, hrun, hany⟩ := (ih (k + 1) i e).mp h2
            exact ⟨j + 1, x, by simpa using hget, by omega, hrun, hany⟩
        · rw [elementLoopOpt, if_neg hy] at hmem
          obtain ⟨j, x, hget, hi, hrun, hany⟩ := (ih (k + 1) i e).mp hmem
          exact ⟨j + 1, x, by simpa using hget, by omega, hrun, hany⟩
      · rintro ⟨j, x, hget, hi, hrun, hany⟩
        cases j with
        | zero =>
          have hx : y = x := by simpa using hget
          subst hx
          rw [elementLoopOpt, if_pos (hrun ▸ hany)]
          subst hrun
          have : i = k := by omega
          subst this
          exact List.mem_cons_self _ _
        | succ jj =>
          have hmem : (i, e) ∈ elementLoopOpt evs (k + 1) t :=
            (ih (k + 1) i e).mpr ⟨jj, x, by simpa using hget, by omega, hrun, hany⟩
          by_cases hy : (runChecks evs y).any id = true
          · rw [elementLoopOpt, if_pos hy]
            exact List.mem_cons_of_mem _ hmem
          · rw [elementLoopOpt, if_neg hy]
            exact hmem

/-- C3: for a `Vec`-typed field with element validators, the emitted
loop is part of the generated `validate`, visits every index of the
value in order, and the field's `element_errors` list holds an entry
`(i, e)` exactly for the indices whose element fails at least one
element validator, the entry's slots recording every failing element
validator for that index (`e = runChecks ev x`); when the element type
is optional, absent elements are skipped while still consuming their
index. -/
theorem element_errors_exactly_failing_indices
    (xs : List β) (full unw : List (Validator (List β)))
    (ev : List (Validator β)) :
    (validateField (α := α) (ε := ε) (.coll xs full unw ev) =
      .regular (runChecks full xs) (runChecks unw xs)
        (element_validation ev xs)) ∧
    (∀ i e, (i, e) ∈ element_validation ev xs ↔
      ∃ x, xs.get? i = some x ∧ e = runChecks ev x ∧ e.any id = true) ∧
    (∀ (ys : List (Option β)) i e,
      (i, e) ∈ element_validation_opt ev ys ↔
      ∃ x, ys.get? i = some (some x) ∧ e = runChecks ev x ∧
        e.any id = true) := by
  refine ⟨rfl, ?_, ?_⟩
  · intro i e
    rw [element_validation, mem_elementLoopPlain]
    constructor
    · rintro ⟨j, x, hget, hi, hrun, hany⟩
      subst hi
      exact ⟨x, by simpa using hget, hrun, hany⟩
    · rintro ⟨x, hget, hrun, hany⟩
      exact ⟨i, x, hget, by omega, hrun, hany⟩
  · intro ys i e
    rw [element_validation_opt, mem_elementLoopOpt]
    constructor
    · rintro ⟨j, x, hget, hi, hrun, hany⟩
      subst hi
      exact ⟨x, by simpa using hget, hrun, hany⟩
    · rintro ⟨x, hget, hrun, hany⟩
      exact ⟨i, x, hget, by omega, hrun, hany⟩

/-- C7 witness: a `newtype` record with two annotated fields is
rejected at generation time with the cardinality error. -/
theorem newtype_option_requires_single_field_witness :
    expand_koruma (.structNamed exTwoFieldStruct) ⟨false, true⟩ =
      .error "newtype structs must have exactly one validated field, found 2" :=
  (newtype_option_requires_single_field exTwoFieldStruct ⟨false, true⟩
    [⟨"a", [vSome], [], false, false⟩, ⟨"b", [vOther], [], false, false⟩]
    rfl rfl).1 (by decide)

/-- C5: aggregating a field's parsed occurrences (whose modifier
occurrences carry no validators, as the occurrence grammar guarantees)
fails with a duplicate-validator error if and only if some validator
name occurs twice within one slot — field-level or element-level,
within one occurrence or across several.  In particular the same name
once in the field slot and once in the element slot is not an error,
and duplicates are never silently deduplicated. -/
theorem duplicate_validator_error_iff (fn : String) (attrs : List KorumaAttr)
    (hmod : ∀ a ∈ attrs, attrIsModifier a = true →
      a.field_validators = [] ∧ a.element_validators = []) :
    ((∃ msg, parse_field fn attrs = .error msg) ↔
      ¬((attrs.flatMap fun a => a.field_validators.map ValidatorAttr.name).Nodup ∧
        (attrs.flatMap fun a => a.element_validators.map ValidatorAttr.name).Nodup)) := by
  obtain ⟨hF, hE⟩ := nonModNames_eq_of_mod_empty attrs hmod
  rw [parse_field_error_iff, parseFieldLoop_isOk, attrsFresh_eq, hF, hE]
  constructor
  · intro h hcontr
    obtain ⟨hf, he⟩ := hcontr
    have h1 : namesFresh []
        (attrs.flatMap fun a => a.field_validators.map ValidatorAttr.name) = true :=
      (namesFresh_true_iff _ _).mpr ⟨hf, by simp⟩
    have h2 : namesFresh []
        (attrs.flatMap fun a => a.element_validators.map ValidatorAttr.name) = true :=
      (namesFresh_true_iff _ _).mpr ⟨he, by simp⟩
    rw [h1, h2] at h
    exact absurd h (by simp)
  · intro h
    by_contra hne
    have htrue : (namesFresh []
        (attrs.flatMap fun a => a.field_validators.map ValidatorAttr.name) &&
      namesFresh []
        (attrs.flatMap fun a => a.element_validators.map ValidatorAttr.name)) = true := by
      cases hval : (namesFresh []
          (attrs.flatMap fun a => a.field_validators.map ValidatorAttr.name) &&
        namesFresh []
          (attrs.flatMap fun a => a.element_validators.map ValidatorAttr.name)) with
      | true => rfl
      | false => exact absurd hval hne
    have hand := Bool.and_eq_true _ _ ▸ htrue
    exact h ⟨((namesFresh_true_iff _ _).mp hand.1).1,
      ((namesFresh_true_iff _ _).mp hand.2).1⟩

/-- C5 witness: one occurrence naming the same validator once in the
field slot and once in the element slot does not error — the seen-sets
are slot-separate. -/
theorem duplicate_validator_error_iff_witness :
    ¬ ∃ msg, parse_field "f" crossSlotAttrs = .error msg := by
  intro hex
  have h := (duplicate_validator_error_iff "f" crossSlotAttrs (by decide)).mp hex
  exact h ⟨by decide, by decide⟩

/-- C8 counterexample: a field carrying a `nested` occurrence plus a
second occurrence with a validator invocation aggregates to an
annotation with `is_nested` set and a non-empty field-level validator
list — the claimed invariant "isNested implies empty validator lists"
is false at this input. -/
theorem nested_annotation_keeps_other_validators :
    parse_field "f" nestedPlusValidatorAttrs =
      .valid ⟨"f", [vSome], [], true, false⟩ ∧
    ([vSome] : List ValidatorAttr) ≠ [] :=
  ⟨rfl, by simp⟩

/-- C8 (amended): a `skip` occurrence excludes the field entirely —
aggregation yields no annotation (it returns `Skip`, or a duplicate
error that fires before the modifier resolution); a `nested`/`newtype`
annotation is not forced to have empty validator lists: any produced
annotation carries exactly the validators collected from the
non-modifier occurrences, which are empty whenever the modifier is the
field's only occurrence. -/
theorem modifier_annotation_aggregation (fn : String) (attrs : List KorumaAttr) :
    ((∃ a ∈ attrs, a.is_skip = true) →
      parse_field fn attrs = .skip ∨ ∃ msg, parse_field fn attrs = .error msg) ∧
    (∀ info, parse_field fn attrs = .valid info →
      info.field_validators = nonModFieldValidators attrs ∧
      info.element_validators = nonModElemValidators attrs) ∧
    parse_field fn [nestedOcc] = .valid ⟨fn, [], [], true, false⟩ ∧
    parse_field fn [⟨[], [], false, false, true⟩] = .valid ⟨fn, [], [], false, true⟩ := by
  refine ⟨?_, ?_, rfl, rfl⟩
  · rintro ⟨a, ha, hskip⟩
    cases h : parseFieldLoop fn attrs [] [] false false false [] [] with
    | error e =>
      right
      exact ⟨e, by simp [parse_field, h]⟩
    | ok out =>
      left
      obtain ⟨aF, aE, sk, ne, nt⟩ := out
      have spec := parseFieldLoop_ok_spec fn attrs [] [] false false false [] [] _ h
      have hsk : sk = true := by
        have := spec.2.2.1
        simp only at this
        rw [this]
        simp only [Bool.false_or, List.any_eq_true]
        exact ⟨a, ha, hskip⟩
      simp [parse_field, h, hsk]
  · intro info hv
    cases h : parseFieldLoop fn attrs [] [] false false false [] [] with
    | error e => simp [parse_field, h] at hv
    | ok out =>
      obtain ⟨aF, aE, sk, ne, nt⟩ := out
      have spec := parseFieldLoop_ok_spec fn attrs [] [] false false false [] [] _ h
      have haF : aF = nonModFieldValidators attrs := by simpa using spec.1
      have haE : aE = nonModElemValidators attrs := by simpa using spec.2.1
      simp only [parse_field, h] at hv
      split_ifs at hv <;> cases hv <;> exact ⟨haF, haE⟩

/-- C8 witness: a `skip` occurrence next to a validator occurrence
excludes the field; the nested-plus-validator field's annotation keeps
the other occurrence's validator. -/
theorem modifier_annotation_aggregation_witness :
    (parse_field "f" skipPlusValidatorAttrs = .skip ∨
      ∃ msg, parse_field "f" skipPlusValidatorAttrs = .error msg) ∧
    ([vSome] : List ValidatorAttr) =
      nonModFieldValidators nestedPlusValidatorAttrs := by
  constructor
  · exact (modifier_annotation_aggregation "f" skipPlusValidatorAttrs).1
      ⟨skipOcc, List.mem_cons_self _ _, rfl⟩
  · exact ((modifier_annotation_aggregation "f" nestedPlusValidatorAttrs).2.1
      ⟨"f", [vSome], [], true, false⟩ rfl).1

end Koruma
